import Mathlib

/-!
Verification of the reference-counted GPU buffer handle layer of
Poisson-Surface-Reconstruction-GPU.

The repository ships the public header `device_array.hpp` (declarations of
`DeviceArrayPCL` / `DeviceArray2DPCL`) and `kernel_containers.hpp` (the
device-view descriptors `DevPtr`, `PtrSzPCL`, `PtrStepPCL`, `PtrStepSzPCL`,
fully defined).  The raw handle implementation (`device_memory.hpp` /
`device_array_impl.hpp`) is referenced by the header but its code is not in
the tree, so the handle operations below are modelled from the spec
(sections 3, 4.1-4.3).

Modelling choices:
- the external memory space is a `World`: a fresh-allocation counter, the
  value of every shared refcount cell, the list of allocation ids handed to
  the external `free` primitive, and the byte contents of every allocation;
- a buffer handle is a triple (data pointer, byte size, refcount pointer);
  the data pointer and the refcount cell of an owning allocation are created
  together by `allocate`, so they are modelled with one shared id;
- `none` models a null pointer in the handle layer; in the device-view
  descriptor layer (translated from `kernel_containers.hpp`, which stores
  raw addresses and initializes them with `0`) a pointer is a plain `Nat`
  byte address and `0` is the null address;
- bytes are `Nat` (their arithmetic is never used, only equality).
-/

/-- State of the external memory space: next fresh allocation id, value of
every shared refcount cell, allocation ids already handed to the external
`free` primitive, and byte contents of every allocation. -/
structure World where
  nextId : Nat
  counts : Nat → Nat
  freed : List Nat
  mem : Nat → List Nat

/-- The memory space before any allocation. -/
def World.init : World := ⟨0, fun _ => 0, [], fun _ => []⟩

/-- Pointwise update of a function on `Nat` keys (the shared refcount cells
and the allocation contents are maps from allocation ids). -/
def updFn {α : Type} (f : Nat → α) (a : Nat) (v : α) : Nat → α :=
  fun x => if x = a then v else f x

/-- Error kinds of the handle layer (spec section 7). -/
inductive MemError where
  | allocationError : MemError
  | immutableExternalBufferError : MemError
  | transferError : MemError
deriving DecidableEq

/-- Modelled from the spec (section 3, BufferHandle; the implementation file
`device_memory.hpp` is not under src/): a raw handle holds an owning or
non-owning data pointer, a byte size, and a pointer to the shared refcount
cell, absent (`none`) when the handle does not own its memory. -/
structure DeviceMemory where
  data : Option Nat
  sizeBytes : Nat
  refcount : Option Nat
deriving DecidableEq

/-- The empty handle: null data, zero size, no refcount cell. -/
def DeviceMemory.empty : DeviceMemory := ⟨none, 0, none⟩

namespace DeviceMemory

/-- Modelled from the spec (section 4.1 `allocate`, implementation not under
src/): requests a fresh backing allocation of `n` bytes together with a fresh
refcount cell initialized to 1.  The external allocator is modelled as always
succeeding; the spec's `AllocationError` path is therefore never taken. -/
def allocate (w : World) (n : Nat) : World × DeviceMemory :=
  (⟨w.nextId + 1, updFn w.counts w.nextId 1, w.freed,
    updFn w.mem w.nextId (List.replicate n 0)⟩,
   ⟨some w.nextId, n, some w.nextId⟩)

/-- Modelled from the spec (section 4.1 `wrap`, implementation not under
src/): a non-owning handle around caller-supplied memory; no refcount cell is
allocated and the world is untouched. -/
def wrap (p n : Nat) : DeviceMemory := ⟨some p, n, none⟩

/-- Modelled from the spec (section 4.1 copy/assignment, implementation not
under src/): the copy constructor shallow-copies `data`, `sizeBytes` and the
refcount reference and, when the source owns memory, increments the shared
counter.  No allocation and no transfer happens. -/
def copy (w : World) (h : DeviceMemory) : World × DeviceMemory :=
  match h.refcount with
  | some c => ({ w with counts := updFn w.counts c (w.counts c + 1) }, h)
  | none => (w, h)

/-- Modelled from the spec (section 4.1 `release`, implementation not under
src/): a non-owning handle only clears its local fields; an owning handle
decrements the shared counter and, when it reaches zero, hands the allocation
to the external `free` primitive.  The local handle always becomes empty. -/
def release (w : World) (h : DeviceMemory) : World × DeviceMemory :=
  match h.refcount with
  | none => (w, DeviceMemory.empty)
  | some c =>
    if w.counts c ≤ 1 then
      ({ w with counts := updFn w.counts c 0,
                freed := w.freed ++ h.data.toList }, DeviceMemory.empty)
    else
      ({ w with counts := updFn w.counts c (w.counts c - 1) },
       DeviceMemory.empty)

/-- Modelled from the spec (section 4.1 assignment, implementation not under
src/): `dst = src` first increments `src`'s counter when `src` owns memory,
then releases `dst`'s previous contents (required by the live-handle counting
invariant of section 3), then shallow-copies the three fields. -/
def assign (w : World) (dst src : DeviceMemory) : World × DeviceMemory :=
  let w1 : World :=
    match src.refcount with
    | some c => { w with counts := updFn w.counts c (w.counts c + 1) }
    | none => w
  ((release w1 dst).1, src)

/-- Modelled from the spec (section 4.1 `create`, implementation not under
src/): idempotent resize.  Equal byte size is a no-op; a size change on a
non-owning handle wrapping caller memory fails with
`ImmutableExternalBufferError`; otherwise the old contents are released
(honoring the refcount) and a fresh allocation is made. -/
def create (w : World) (h : DeviceMemory) (n : Nat) :
    Except MemError (World × DeviceMemory) :=
  if n = h.sizeBytes then .ok (w, h)
  else if h.data.isSome && h.refcount.isNone then
    .error .immutableExternalBufferError
  else .ok (allocate (release w h).1 n)

/-- Modelled from the spec (section 4.1 `upload`, implementation not under
src/): ensures capacity via `create`, then transfers the host bytes into the
buffer. -/
def upload (w : World) (h : DeviceMemory) (bs : List Nat) :
    Except MemError (World × DeviceMemory) :=
  match create w h bs.length with
  | .error e => .error e
  | .ok (w', h') =>
    match h'.data with
    | some a => .ok ({ w' with mem := updFn w'.mem a bs }, h')
    | none => .ok (w', h')

/-- Modelled from the spec (section 4.1 `download`, implementation not under
src/): transfers the full current buffer contents to the host. -/
def download (w : World) (h : DeviceMemory) : List Nat :=
  match h.data with
  | some a => (w.mem a).take h.sizeBytes
  | none => []

/-- Modelled from the spec (section 4.1 `swap`, implementation not under
src/): exchanges the `data`, `sizeBytes` and refcount fields of the two
handles; the world (allocations, counters, contents) is untouched. -/
def swap (w : World) (a b : DeviceMemory) : World × DeviceMemory × DeviceMemory :=
  (w, ⟨b.data, b.sizeBytes, b.refcount⟩, ⟨a.data, a.sizeBytes, a.refcount⟩)

end DeviceMemory

/-! ## Device-view descriptors, translated from `kernel_containers.hpp`.
Addresses are byte addresses (`Nat`); the null pointer is address `0`,
matching the `data(0)` initializers in the source. -/

/-- `DevPtr<T>` from `kernel_containers.hpp`: a bare device pointer. -/
structure DevPtr where
  data : Nat

/-- Embeds the default constructor `DevPtr() : data(0)`. -/
def DevPtr.mkDefault : DevPtr := ⟨0⟩

/-- `PtrSzPCL<T>`: pointer plus element count (base `DevPtr` flattened). -/
structure PtrSzPCL where
  data : Nat
  size : Nat

/-- Embeds `PtrSzPCL() : size(0)`; the implicit base-class default
constructor `DevPtr()` sets `data` to 0. -/
def PtrSzPCL.mkDefault : PtrSzPCL := ⟨0, 0⟩

/-- `PtrStepPCL<T>`: pointer plus row stride in bytes (base flattened). -/
structure PtrStepPCL where
  data : Nat
  step : Nat

/-- Embeds `PtrStepPCL() : step(0)`; the implicit `DevPtr()` sets `data`
to 0. -/
def PtrStepPCL.mkDefault : PtrStepPCL := ⟨0, 0⟩

/-- `PtrStepPCL::ptr(y)` from `kernel_containers.hpp` line 80:
`(T*)((char*)data + y * step)` — byte-address arithmetic, the stride applied
in bytes regardless of the element type.  Row indices are modelled as `Nat`. -/
def PtrStepPCL.ptr (p : PtrStepPCL) (y : Nat) : Nat := p.data + y * p.step

/-- `PtrStepSzPCL<T>`: pointer, stride in bytes, columns, rows. -/
structure PtrStepSzPCL where
  data : Nat
  step : Nat
  cols : Nat
  rows : Nat

/-- Embeds `PtrStepSzPCL() : cols(0), rows(0)`; the implicit base chain
`PtrStepPCL()` / `DevPtr()` sets `step` and `data` to 0. -/
def PtrStepSzPCL.mkDefault : PtrStepSzPCL := ⟨0, 0, 0, 0⟩

/-! ## 2-D pitched handle layer. -/

/-- Modelled from the spec (section 4.1 pitched variant, implementation not
under src/): the pitched raw handle stores a byte address, the row stride in
bytes, the row width in bytes, the row count and the refcount pointer. -/
structure DeviceMemory2D where
  data : Nat
  stepBytes : Nat
  colsBytes : Nat
  rows : Nat
  refcount : Option Nat

/-- Modelled from the spec (section 4.1 `swap`, pitched variant): exchanges
the data pointer, stride, sizes and refcount pointer fieldwise. -/
def DeviceMemory2D.swap (a b : DeviceMemory2D) : DeviceMemory2D × DeviceMemory2D :=
  (⟨b.data, b.stepBytes, b.colsBytes, b.rows, b.refcount⟩,
   ⟨a.data, a.stepBytes, a.colsBytes, a.rows, a.refcount⟩)

/-- The typed 2-D container `DeviceArray2DPCL<T>` (declared in
`device_array.hpp`): a pitched handle plus the element size `sizeof(T)`. -/
structure DeviceArray2DPCL extends DeviceMemory2D where
  elemSize : Nat

/-- Modelled from the spec (section 4.3 `ptr(rowIndex)`, implementation not
under src/): base pointer offset by `rowIndex * stepBytes` bytes, the stride
applied in bytes regardless of the element type. -/
def DeviceArray2DPCL.ptr (c : DeviceArray2DPCL) (y : Nat) : Nat :=
  c.data + y * c.stepBytes

/-- Modelled from the spec (section 4.3 `elem_step`, implementation not under
src/): the row stride expressed in units of `T`, `stepBytes / sizeof(T)` by
truncating integer division. -/
def DeviceArray2DPCL.elem_step (c : DeviceArray2DPCL) : Nat :=
  c.stepBytes / c.elemSize

/-! ## Typed 1-D container, built over the raw byte layer.
`DeviceArrayPCL<T>` delegates to the raw handle with sizes scaled by
`sizeof(T)`; an element type with a well-defined byte representation is a
codec `enc`/`dec` with fixed encoding length. -/

/-- Byte serialization of a host element sequence (the byte image that the
typed `upload` hands to the raw layer). -/
def encodeList {T : Type} (enc : T → List Nat) : List T → List Nat
  | [] => []
  | x :: xs => enc x ++ encodeList enc xs

/-- Decoding of `m` elements of `k` bytes each from a downloaded byte
image. -/
def decodeChunks {T : Type} (dec : List Nat → T) (k : Nat) :
    Nat → List Nat → List T
  | 0, _ => []
  | m + 1, bs => dec (bs.take k) :: decodeChunks dec k m (bs.drop k)

/-- Modelled from the spec (section 4.2 `upload`, implementation not under
src/): the typed upload serializes `count` elements and delegates to the raw
byte-level upload, which calls `create` to ensure capacity. -/
def DeviceArrayPCL.upload {T : Type} (enc : T → List Nat) (w : World)
    (h : DeviceMemory) (xs : List T) : Except MemError (World × DeviceMemory) :=
  DeviceMemory.upload w h (encodeList enc xs)

/-- Modelled from the spec (section 4.2 `download` and `size`, implementation
not under src/): downloads the raw bytes and decodes
`size() = sizeBytes / sizeof(T)` elements. -/
def DeviceArrayPCL.download {T : Type} (dec : List Nat → T) (k : Nat)
    (w : World) (h : DeviceMemory) : List T :=
  decodeChunks dec k (h.sizeBytes / k) (DeviceMemory.download w h)

/-! ## The live-handle counting invariant (spec section 3). -/

/-- Number of handles in the pool whose refcount field points to cell `c`. -/
def refsTo (hs : List DeviceMemory) (c : Nat) : Nat :=
  match hs with
  | [] => 0
  | h :: t => (if h.refcount = some c then 1 else 0) + refsTo t c

/-- The shared-ownership invariant of spec section 3 over a pool `hs` of all
live handles: every refcount cell in use was allocated (is below the fresh
id), is paired with the data pointer it was allocated with (so all handles
sharing a cell share the data pointer), and its counter value equals the
number of live handles referencing that allocation. -/
def Wf (w : World) (hs : List DeviceMemory) : Prop :=
  ∀ h, h ∈ hs → ∀ c, h.refcount = some c →
    c < w.nextId ∧ h.data = some c ∧ w.counts c = refsTo hs c

/-- One step of the handle lifecycle over a pool of live handles: default
construction, explicit allocation, wrapping external memory, copy
construction, assignment, `create`, `upload`, `release`, `swap`, and a
destroyed handle leaving the pool after its release. -/
inductive Step : World → List DeviceMemory → World → List DeviceMemory → Prop where
  | emptyNew (w : World) (hs : List DeviceMemory) :
      Step w hs w (hs ++ [DeviceMemory.empty])
  | alloc (w : World) (hs : List DeviceMemory) (n : Nat) :
      Step w hs (DeviceMemory.allocate w n).1 (hs ++ [(DeviceMemory.allocate w n).2])
  | wrapNew (w : World) (hs : List DeviceMemory) (p n : Nat) :
      Step w hs w (hs ++ [DeviceMemory.wrap p n])
  | copyNew (w : World) (pre post : List DeviceMemory) (h : DeviceMemory) :
      Step w (pre ++ h :: post) (DeviceMemory.copy w h).1
        (pre ++ h :: (post ++ [(DeviceMemory.copy w h).2]))
  | releaseAt (w : World) (pre post : List DeviceMemory) (h : DeviceMemory) :
      Step w (pre ++ h :: post) (DeviceMemory.release w h).1
        (pre ++ (DeviceMemory.release w h).2 :: post)
  | assignAt (w : World) (pre post : List DeviceMemory) (dst src : DeviceMemory) :
      src ∈ pre ++ post →
      Step w (pre ++ dst :: post) (DeviceMemory.assign w dst src).1
        (pre ++ (DeviceMemory.assign w dst src).2 :: post)
  | createAt (w : World) (pre post : List DeviceMemory) (h : DeviceMemory)
      (n : Nat) (w' : World) (h' : DeviceMemory) :
      DeviceMemory.create w h n = .ok (w', h') →
      Step w (pre ++ h :: post) w' (pre ++ h' :: post)
  | uploadAt (w : World) (pre post : List DeviceMemory) (h : DeviceMemory)
      (bs : List Nat) (w' : World) (h' : DeviceMemory) :
      DeviceMemory.upload w h bs = .ok (w', h') →
      Step w (pre ++ h :: post) w' (pre ++ h' :: post)
  | swapAt (w : World) (pre mid post : List DeviceMemory) (a b : DeviceMemory) :
      Step w (pre ++ a :: mid ++ b :: post) (DeviceMemory.swap w a b).1
        (pre ++ (DeviceMemory.swap w a b).2.1 :: mid ++ (DeviceMemory.swap w a b).2.2 :: post)
  | dropAt (w : World) (pre post : List DeviceMemory) (h : DeviceMemory) :
      h.refcount = none →
      Step w (pre ++ h :: post) w (pre ++ post)

/-! ## Basic lemmas. -/

theorem updFn_same {α : Type} (f : Nat → α) (a : Nat) (v : α) :
    updFn f a v a = v := by
  simp [updFn]

theorem updFn_other {α : Type} (f : Nat → α) (a : Nat) (v : α) (x : Nat)
    (h : x ≠ a) : updFn f a v x = f x := by
  simp [updFn, h]

theorem refsTo_nil (c : Nat) : refsTo [] c = 0 := rfl

theorem refsTo_cons (h : DeviceMemory) (t : List DeviceMemory) (c : Nat) :
    refsTo (h :: t) c = (if h.refcount = some c then 1 else 0) + refsTo t c := rfl

theorem refsTo_append (l₁ l₂ : List DeviceMemory) (c : Nat) :
    refsTo (l₁ ++ l₂) c = refsTo l₁ c + refsTo l₂ c := by
  induction l₁ with
  | nil => simp [refsTo]
  | cons h t ih => simp [refsTo_cons, ih]; omega

theorem refsTo_pos_of_mem (hs : List DeviceMemory) (h : DeviceMemory) (c : Nat)
    (hm : h ∈ hs) (hr : h.refcount = some c) : 1 ≤ refsTo hs c := by
  induction hs with
  | nil => cases hm
  | cons x t ih =>
    rcases List.mem_cons.mp hm with hx | ht
    · subst hx; simp [refsTo_cons, hr]
    · have := ih ht; simp [refsTo_cons]; omega

theorem refsTo_eq_zero (hs : List DeviceMemory) (m : Nat)
    (hb : ∀ h ∈ hs, ∀ c, h.refcount = some c → c < m) : refsTo hs m = 0 := by
  induction hs with
  | nil => rfl
  | cons x t ih =>
    have hx : ¬ x.refcount = some m := by
      intro hxm
      exact absurd (hb x (List.mem_cons_self x t) m hxm) (lt_irrefl m)
    have ht : refsTo t m = 0 :=
      ih (fun h hm c hc => hb h (List.mem_cons_of_mem x hm) c hc)
    simp [refsTo_cons, hx, ht]

/-! ## Branch characterizations of the handle operations. -/

theorem release_none (w : World) (h : DeviceMemory) (hr : h.refcount = none) :
    DeviceMemory.release w h = (w, DeviceMemory.empty) := by
  unfold DeviceMemory.release
  rw [hr]

theorem release_last (w : World) (h : DeviceMemory) (c : Nat)
    (hr : h.refcount = some c) (hc : w.counts c ≤ 1) :
    DeviceMemory.release w h =
      ({ w with counts := updFn w.counts c 0,
                freed := w.freed ++ h.data.toList }, DeviceMemory.empty) := by
  unfold DeviceMemory.release
  rw [hr]
  simp [hc]

theorem release_dec (w : World) (h : DeviceMemory) (c : Nat)
    (hr : h.refcount = some c) (hc : 1 < w.counts c) :
    DeviceMemory.release w h =
      ({ w with counts := updFn w.counts c (w.counts c - 1) },
       DeviceMemory.empty) := by
  unfold DeviceMemory.release
  rw [hr]
  simp [show ¬ w.counts c ≤ 1 by omega]

theorem release_snd (w : World) (h : DeviceMemory) :
    (DeviceMemory.release w h).2 = DeviceMemory.empty := by
  unfold DeviceMemory.release
  cases h.refcount with
  | none => rfl
  | some c => by_cases hc : w.counts c ≤ 1 <;> simp [hc]

theorem copy_none (w : World) (h : DeviceMemory) (hr : h.refcount = none) :
    DeviceMemory.copy w h = (w, h) := by
  unfold DeviceMemory.copy
  rw [hr]

theorem copy_some (w : World) (h : DeviceMemory) (c : Nat)
    (hr : h.refcount = some c) :
    DeviceMemory.copy w h =
      ({ w with counts := updFn w.counts c (w.counts c + 1) }, h) := by
  unfold DeviceMemory.copy
  rw [hr]

theorem copy_snd (w : World) (h : DeviceMemory) :
    (DeviceMemory.copy w h).2 = h := by
  unfold DeviceMemory.copy
  cases h.refcount <;> rfl

/-- Assignment is increment-then-release-then-overwrite: its world effect is
the copy increment followed by the release of the destination. -/
theorem assign_eq (w : World) (dst src : DeviceMemory) :
    DeviceMemory.assign w dst src =
      ((DeviceMemory.release (DeviceMemory.copy w src).1 dst).1, src) := by
  unfold DeviceMemory.assign DeviceMemory.copy
  cases src.refcount <;> rfl

/-! ## Pool membership and counting helpers. -/

theorem mem_middle {g x : DeviceMemory} {pre post : List DeviceMemory}
    (hg : g ∈ pre ++ x :: post) : g ∈ pre ∨ g = x ∨ g ∈ post := by
  rcases List.mem_append.mp hg with h1 | h1
  · exact Or.inl h1
  · rcases List.mem_cons.mp h1 with h2 | h2
    · exact Or.inr (Or.inl h2)
    · exact Or.inr (Or.inr h2)

theorem mem_middle_self (pre : List DeviceMemory) (x : DeviceMemory)
    (post : List DeviceMemory) : x ∈ pre ++ x :: post :=
  List.mem_append.mpr (Or.inr (List.mem_cons_self x post))

theorem mem_middle_left {g : DeviceMemory} (pre : List DeviceMemory)
    (x : DeviceMemory) (post : List DeviceMemory) (hg : g ∈ pre) :
    g ∈ pre ++ x :: post :=
  List.mem_append.mpr (Or.inl hg)

theorem mem_middle_right {g : DeviceMemory} (pre : List DeviceMemory)
    (x : DeviceMemory) (post : List DeviceMemory) (hg : g ∈ post) :
    g ∈ pre ++ x :: post :=
  List.mem_append.mpr (Or.inr (List.mem_cons_of_mem x hg))

theorem refsTo_middle (pre post : List DeviceMemory) (x : DeviceMemory) (c : Nat) :
    refsTo (pre ++ x :: post) c =
      refsTo pre c + refsTo post c + (if x.refcount = some c then 1 else 0) := by
  rw [refsTo_append, refsTo_cons]
  omega

/-! ## Preservation of the counting invariant by each operation. -/

theorem wf_ext (w w' : World) (hs : List DeviceMemory)
    (hn : w'.nextId = w.nextId) (hc : w'.counts = w.counts)
    (hwf : Wf w hs) : Wf w' hs := by
  intro g hg c hgc
  rw [hn, hc]
  exact hwf g hg c hgc

theorem wf_append_nonowning (w : World) (hs : List DeviceMemory)
    (x : DeviceMemory) (hx : x.refcount = none) (hwf : Wf w hs) :
    Wf w (hs ++ [x]) := by
  intro g hg c hgc
  rcases List.mem_append.mp hg with h1 | h1
  · obtain ⟨e1, e2, e3⟩ := hwf g h1 c hgc
    refine ⟨e1, e2, ?_⟩
    rw [refsTo_append, refsTo_cons, refsTo_nil]
    simp [hx]
    exact e3
  · have hgx : g = x := by simpa using h1
    subst hgx
    rw [hx] at hgc
    cases hgc

theorem wf_copy_mem (w : World) (hs : List DeviceMemory) (h : DeviceMemory)
    (hm : h ∈ hs) (hwf : Wf w hs) :
    Wf (DeviceMemory.copy w h).1 (hs ++ [(DeviceMemory.copy w h).2]) := by
  rw [copy_snd]
  cases hr : h.refcount with
  | none =>
    rw [copy_none w h hr]
    exact wf_append_nonowning w hs h hr hwf
  | some c₀ =>
    rw [copy_some w h c₀ hr]
    intro g hg c hgc
    have hg' : g ∈ hs := by
      rcases List.mem_append.mp hg with h1 | h1
      · exact h1
      · have hgx : g = h := by simpa using h1
        subst hgx
        exact hm
    obtain ⟨e1, e2, e3⟩ := hwf g hg' c hgc
    refine ⟨e1, e2, ?_⟩
    rw [refsTo_append, refsTo_cons, refsTo_nil]
    by_cases hcc : c = c₀
    · subst hcc
      show updFn w.counts c (w.counts c + 1) c = _
      rw [updFn_same]
      simp [hr]
      omega
    · show updFn w.counts c₀ (w.counts c₀ + 1) c = _
      rw [updFn_other _ _ _ _ hcc]
      simp [hr, Ne.symm hcc]
      exact e3

theorem wf_release_at (w : World) (pre post : List DeviceMemory)
    (h : DeviceMemory) (hwf : Wf w (pre ++ h :: post)) :
    Wf (DeviceMemory.release w h).1 (pre ++ DeviceMemory.empty :: post) := by
  cases hr : h.refcount with
  | none =>
    rw [release_none w h hr]
    intro g hg c hgc
    rcases mem_middle hg with h1 | h1 | h1
    · obtain ⟨e1, e2, e3⟩ := hwf g (mem_middle_left pre h post h1) c hgc
      refine ⟨e1, e2, ?_⟩
      rw [refsTo_middle] at e3 ⊢
      simp [hr] at e3
      simp [DeviceMemory.empty]
      exact e3
    · subst h1
      simp [DeviceMemory.empty] at hgc
    · obtain ⟨e1, e2, e3⟩ := hwf g (mem_middle_right pre h post h1) c hgc
      refine ⟨e1, e2, ?_⟩
      rw [refsTo_middle] at e3 ⊢
      simp [hr] at e3
      simp [DeviceMemory.empty]
      exact e3
  | some c₀ =>
    obtain ⟨hlt₀, hdata₀, hcnt₀⟩ := hwf h (mem_middle_self pre h post) c₀ hr
    rw [refsTo_middle] at hcnt₀
    simp [hr] at hcnt₀
    by_cases hle : w.counts c₀ ≤ 1
    · rw [release_last w h c₀ hr hle]
      intro g hg c hgc
      have hg' : g ∈ pre ++ h :: post := by
        rcases mem_middle hg with h1 | h1 | h1
        · exact mem_middle_left pre h post h1
        · subst h1; simp [DeviceMemory.empty] at hgc
        · exact mem_middle_right pre h post h1
      obtain ⟨e1, e2, e3⟩ := hwf g hg' c hgc
      refine ⟨e1, e2, ?_⟩
      rw [refsTo_middle] at e3 ⊢
      show updFn w.counts c₀ 0 c = _
      simp [DeviceMemory.empty]
      by_cases hcc : c = c₀
      · subst hcc
        rw [updFn_same]
        simp [hr] at e3
        omega
      · rw [updFn_other _ _ _ _ hcc]
        simp [hr, Ne.symm hcc] at e3
        exact e3
    · rw [release_dec w h c₀ hr (by omega)]
      intro g hg c hgc
      have hg' : g ∈ pre ++ h :: post := by
        rcases mem_middle hg with h1 | h1 | h1
        · exact mem_middle_left pre h post h1
        · subst h1; simp [DeviceMemory.empty] at hgc
        · exact mem_middle_right pre h post h1
      obtain ⟨e1, e2, e3⟩ := hwf g hg' c hgc
      refine ⟨e1, e2, ?_⟩
      rw [refsTo_middle] at e3 ⊢
      show updFn w.counts c₀ (w.counts c₀ - 1) c = _
      simp [DeviceMemory.empty]
      by_cases hcc : c = c₀
      · subst hcc
        rw [updFn_same]
        simp [hr] at e3
        omega
      · rw [updFn_other _ _ _ _ hcc]
        simp [hr, Ne.symm hcc] at e3
        exact e3

theorem wf_replace_alloc (w : World) (pre post : List DeviceMemory)
    (x : DeviceMemory) (n : Nat) (hx : x.refcount = none)
    (hwf : Wf w (pre ++ x :: post)) :
    Wf (DeviceMemory.allocate w n).1 (pre ++ (DeviceMemory.allocate w n).2 :: post) := by
  have hbound : ∀ g ∈ pre ++ x :: post, ∀ c, g.refcount = some c → c < w.nextId :=
    fun g hg c hc => (hwf g hg c hc).1
  have hpre : refsTo pre w.nextId = 0 :=
    refsTo_eq_zero pre w.nextId
      (fun g hg c hc => hbound g (mem_middle_left pre x post hg) c hc)
  have hpost : refsTo post w.nextId = 0 :=
    refsTo_eq_zero post w.nextId
      (fun g hg c hc => hbound g (mem_middle_right pre x post hg) c hc)
  intro g hg c hgc
  rcases mem_middle hg with h1 | h1 | h1
  · obtain ⟨e1, e2, e3⟩ := hwf g (mem_middle_left pre x post h1) c hgc
    refine ⟨Nat.lt_succ_of_lt e1, e2, ?_⟩
    show updFn w.counts w.nextId 1 c = _
    rw [updFn_other _ _ _ _ (by omega)]
    rw [refsTo_middle] at e3 ⊢
    simp [hx] at e3
    simp [DeviceMemory.allocate, show ¬ w.nextId = c by omega]
    exact e3
  · subst h1
    simp [DeviceMemory.allocate] at hgc
    subst hgc
    refine ⟨Nat.lt_succ_self _, rfl, ?_⟩
    show updFn w.counts w.nextId 1 w.nextId = _
    rw [updFn_same, refsTo_middle]
    simp [DeviceMemory.allocate, hpre, hpost]
  · obtain ⟨e1, e2, e3⟩ := hwf g (mem_middle_right pre x post h1) c hgc
    refine ⟨Nat.lt_succ_of_lt e1, e2, ?_⟩
    show updFn w.counts w.nextId 1 c = _
    rw [updFn_other _ _ _ _ (by omega)]
    rw [refsTo_middle] at e3 ⊢
    simp [hx] at e3
    simp [DeviceMemory.allocate, show ¬ w.nextId = c by omega]
    exact e3

theorem wf_src_into_middle (w : World) (pre post : List DeviceMemory)
    (src : DeviceMemory)
    (hwf : Wf w (pre ++ DeviceMemory.empty :: (post ++ [src]))) :
    Wf w (pre ++ src :: post) := by
  intro g hg c hgc
  have hg' : g ∈ pre ++ DeviceMemory.empty :: (post ++ [src]) := by
    simp only [List.mem_append, List.mem_cons, List.mem_singleton] at hg ⊢
    tauto
  obtain ⟨e1, e2, e3⟩ := hwf g hg' c hgc
  refine ⟨e1, e2, ?_⟩
  rw [refsTo_middle, refsTo_append, refsTo_cons, refsTo_nil] at e3
  rw [refsTo_middle]
  simp [DeviceMemory.empty] at e3
  omega

theorem wf_swap_mid (w : World) (pre mid post : List DeviceMemory)
    (a b : DeviceMemory) (hwf : Wf w (pre ++ a :: mid ++ b :: post)) :
    Wf w (pre ++ b :: mid ++ a :: post) := by
  intro g hg c hgc
  have hg' : g ∈ pre ++ a :: mid ++ b :: post := by
    simp only [List.mem_append, List.mem_cons] at hg ⊢
    tauto
  obtain ⟨e1, e2, e3⟩ := hwf g hg' c hgc
  refine ⟨e1, e2, ?_⟩
  rw [refsTo_append, refsTo_cons, refsTo_append, refsTo_cons] at e3 ⊢
  omega

theorem wf_drop (w : World) (pre post : List DeviceMemory) (h : DeviceMemory)
    (hr : h.refcount = none) (hwf : Wf w (pre ++ h :: post)) :
    Wf w (pre ++ post) := by
  intro g hg c hgc
  have hg' : g ∈ pre ++ h :: post := by
    simp only [List.mem_append, List.mem_cons] at hg ⊢
    tauto
  obtain ⟨e1, e2, e3⟩ := hwf g hg' c hgc
  refine ⟨e1, e2, ?_⟩
  rw [refsTo_middle] at e3
  rw [refsTo_append]
  simp [hr] at e3
  omega

theorem wf_create_ok (w : World) (pre post : List DeviceMemory)
    (h : DeviceMemory) (n : Nat) (w' : World) (h' : DeviceMemory)
    (hok : DeviceMemory.create w h n = .ok (w', h'))
    (hwf : Wf w (pre ++ h :: post)) : Wf w' (pre ++ h' :: post) := by
  unfold DeviceMemory.create at hok
  by_cases hsz : n = h.sizeBytes
  · rw [if_pos hsz] at hok
    obtain ⟨hw, hh⟩ := Prod.mk.injEq .. ▸ (Except.ok.injEq .. ▸ hok)
    subst hw; subst hh
    exact hwf
  · rw [if_neg hsz] at hok
    by_cases hwrap : h.data.isSome && h.refcount.isNone
    · rw [if_pos hwrap] at hok
      cases hok
    · rw [if_neg hwrap] at hok
      obtain ⟨hw, hh⟩ := Prod.mk.injEq .. ▸ (Except.ok.injEq .. ▸ hok)
      subst hw; subst hh
      exact wf_replace_alloc _ pre post DeviceMemory.empty n rfl
        (wf_release_at w pre post h hwf)

theorem wf_upload_ok (w : World) (pre post : List DeviceMemory)
    (h : DeviceMemory) (bs : List Nat) (w' : World) (h' : DeviceMemory)
    (hok : DeviceMemory.upload w h bs = .ok (w', h'))
    (hwf : Wf w (pre ++ h :: post)) : Wf w' (pre ++ h' :: post) := by
  unfold DeviceMemory.upload at hok
  cases hcr : DeviceMemory.create w h bs.length with
  | error e => rw [hcr] at hok; cases hok
  | ok p =>
    obtain ⟨w₁, h₁⟩ := p
    rw [hcr] at hok
    dsimp only at hok
    have hwf₁ := wf_create_ok w pre post h bs.length w₁ h₁ hcr hwf
    cases hd : h₁.data with
    | some a =>
      rw [hd] at hok
      obtain ⟨hw, hh⟩ := Prod.mk.injEq .. ▸ (Except.ok.injEq .. ▸ hok)
      subst hh
      rw [← hw]
      exact wf_ext _ w₁ _ rfl rfl hwf₁
    | none =>
      rw [hd] at hok
      obtain ⟨hw, hh⟩ := Prod.mk.injEq .. ▸ (Except.ok.injEq .. ▸ hok)
      subst hw; subst hh
      exact hwf₁

theorem release_fst_nextId (w : World) (h : DeviceMemory) :
    (DeviceMemory.release w h).1.nextId = w.nextId := by
  unfold DeviceMemory.release
  cases h.refcount with
  | none => rfl
  | some c => by_cases hc : w.counts c ≤ 1 <;> simp [hc]

theorem release_fst_mem (w : World) (h : DeviceMemory) :
    (DeviceMemory.release w h).1.mem = w.mem := by
  unfold DeviceMemory.release
  cases h.refcount with
  | none => rfl
  | some c => by_cases hc : w.counts c ≤ 1 <;> simp [hc]

theorem copy_fst_nextId (w : World) (h : DeviceMemory) :
    (DeviceMemory.copy w h).1.nextId = w.nextId := by
  unfold DeviceMemory.copy
  cases h.refcount <;> rfl

theorem copy_fst_mem (w : World) (h : DeviceMemory) :
    (DeviceMemory.copy w h).1.mem = w.mem := by
  unfold DeviceMemory.copy
  cases h.refcount <;> rfl

theorem assign_snd (w : World) (dst src : DeviceMemory) :
    (DeviceMemory.assign w dst src).2 = src := by
  rw [assign_eq]

theorem wf_assign_at (w : World) (pre post : List DeviceMemory)
    (dst src : DeviceMemory) (hsrc : src ∈ pre ++ post)
    (hwf : Wf w (pre ++ dst :: post)) :
    Wf (DeviceMemory.assign w dst src).1 (pre ++ src :: post) := by
  rw [assign_eq]
  have hm : src ∈ pre ++ dst :: post := by
    simp only [List.mem_append, List.mem_cons] at hsrc ⊢
    tauto
  have h1 := wf_copy_mem w (pre ++ dst :: post) src hm hwf
  rw [copy_snd, List.append_assoc] at h1
  have h2 := wf_release_at (DeviceMemory.copy w src).1 pre (post ++ [src]) dst h1
  exact wf_src_into_middle _ pre post src h2

theorem wf_alloc_append (w : World) (hs : List DeviceMemory) (n : Nat)
    (hwf : Wf w hs) :
    Wf (DeviceMemory.allocate w n).1 (hs ++ [(DeviceMemory.allocate w n).2]) := by
  exact wf_replace_alloc w hs [] DeviceMemory.empty n rfl
    (wf_append_nonowning w hs DeviceMemory.empty rfl hwf)

/-- C1: handles that are copies of one another share the refcount cell and
the data pointer, and the counter value equals the number of live handles of
that allocation — the invariant `Wf` is preserved by every lifecycle step of
a pool of live handles; moreover copy construction and assignment shallow-copy
`data`, `sizeBytes` and the refcount reference and increment the shared
counter, performing no allocation and never touching buffer contents (no deep
copy). -/
theorem DeviceMemory.refcount_invariant :
    (∀ w hs w' hs', Step w hs w' hs' → Wf w hs → Wf w' hs') ∧
    (∀ w h, (DeviceMemory.copy w h).2 = h ∧
      (DeviceMemory.copy w h).1.nextId = w.nextId ∧
      (DeviceMemory.copy w h).1.mem = w.mem ∧
      (DeviceMemory.copy w h).1.freed = w.freed ∧
      (∀ c, h.refcount = some c →
        (DeviceMemory.copy w h).1.counts c = w.counts c + 1)) ∧
    (∀ w dst src, (DeviceMemory.assign w dst src).2 = src ∧
      (DeviceMemory.assign w dst src).1.nextId = w.nextId ∧
      (DeviceMemory.assign w dst src).1.mem = w.mem) := by
  refine ⟨?_, ?_, ?_⟩
  · intro w hs w' hs' hstep hwf
    cases hstep with
    | emptyNew hs =>
      exact wf_append_nonowning w hs DeviceMemory.empty rfl hwf
    | alloc hs n =>
      exact wf_alloc_append w hs n hwf
    | wrapNew hs p n =>
      exact wf_append_nonowning w hs (DeviceMemory.wrap p n) rfl hwf
    | copyNew pre post h =>
      have h1 := wf_copy_mem w (pre ++ h :: post) h (mem_middle_self pre h post) hwf
      rw [List.append_assoc, List.cons_append] at h1
      exact h1
    | releaseAt pre post h =>
      rw [release_snd]
      exact wf_release_at w pre post h hwf
    | assignAt pre post dst src hsrc =>
      rw [assign_snd]
      exact wf_assign_at w pre post dst src hsrc hwf
    | createAt pre post h n wdead h₂ hok =>
      exact wf_create_ok w pre post h n w' h₂ hok hwf
    | uploadAt pre post h bs wdead h₂ hok =>
      exact wf_upload_ok w pre post h bs w' h₂ hok hwf
    | swapAt pre mid post a b =>
      exact wf_swap_mid w pre mid post a b hwf
    | dropAt pre post h hr =>
      exact wf_drop w pre post h hr hwf
  · intro w h
    cases hr : h.refcount with
    | none =>
      rw [copy_none w h hr]
      exact ⟨rfl, rfl, rfl, rfl, fun c hc => by cases hc⟩
    | some c₀ =>
      rw [copy_some w h c₀ hr]
      refine ⟨rfl, rfl, rfl, rfl, fun c hc => ?_⟩
      obtain rfl : c₀ = c := by injection hc
      exact updFn_same _ _ _
  · intro w dst src
    refine ⟨assign_snd w dst src, ?_, ?_⟩
    · rw [assign_eq]
      rw [release_fst_nextId, copy_fst_nextId]
    · rw [assign_eq]
      rw [release_fst_mem, copy_fst_mem]

/-- Witness for C1: a concrete allocation step from the empty pool satisfies
the preserved invariant, and a concrete copy increments a concrete counter. -/
theorem DeviceMemory.refcount_invariant_witness :
    Wf (DeviceMemory.allocate World.init 4).1
      [(DeviceMemory.allocate World.init 4).2] ∧
    (DeviceMemory.copy ⟨1, fun _ => 1, [], fun _ => []⟩
      ⟨some 0, 4, some 0⟩).1.counts 0 = 2 :=
  ⟨DeviceMemory.refcount_invariant.1 World.init []
      (DeviceMemory.allocate World.init 4).1
      ([] ++ [(DeviceMemory.allocate World.init 4).2])
      (Step.alloc World.init [] 4)
      (fun g hg => absurd hg (List.not_mem_nil g)),
   (DeviceMemory.refcount_invariant.2.1 ⟨1, fun _ => 1, [], fun _ => []⟩
      ⟨some 0, 4, some 0⟩).2.2.2.2 0 rfl⟩

/-- C2: after `release` the local handle is always empty (`size() == 0`,
`ptr() == null`) no matter how many copies remain live; the counter is
decremented, and the allocation is handed to the external free primitive
exactly when the decremented counter reaches zero. -/
theorem DeviceMemory.release_clears_handle :
    (∀ w h, (DeviceMemory.release w h).2.sizeBytes = 0 ∧
      (DeviceMemory.release w h).2.data = none) ∧
    (∀ w h c, h.refcount = some c → 2 ≤ w.counts c →
      (DeviceMemory.release w h).1.freed = w.freed ∧
      (DeviceMemory.release w h).1.counts c = w.counts c - 1) ∧
    (∀ w h c, h.refcount = some c → w.counts c = 1 →
      (DeviceMemory.release w h).1.freed = w.freed ++ h.data.toList ∧
      (DeviceMemory.release w h).1.counts c = 0) := by
  refine ⟨?_, ?_, ?_⟩
  · intro w h
    rw [release_snd]
    exact ⟨rfl, rfl⟩
  · intro w h c hr hc
    rw [release_dec w h c hr (by omega)]
    exact ⟨rfl, updFn_same _ _ _⟩
  · intro w h c hr hc
    rw [release_last w h c hr (by omega)]
    exact ⟨rfl, updFn_same _ _ _⟩

/-- Witness for C2: a release with another copy live keeps the allocation
unfreed; a release of the last reference frees its allocation id. -/
theorem DeviceMemory.release_clears_handle_witness :
    ((DeviceMemory.release ⟨1, fun _ => 2, [], fun _ => []⟩
        ⟨some 0, 4, some 0⟩).1.freed = [] ∧
      (DeviceMemory.release ⟨1, fun _ => 2, [], fun _ => []⟩
        ⟨some 0, 4, some 0⟩).1.counts 0 = 2 - 1) ∧
    (DeviceMemory.release ⟨1, fun _ => 1, [], fun _ => []⟩
      ⟨some 0, 4, some 0⟩).1.freed = [] ++ [0] :=
  ⟨DeviceMemory.release_clears_handle.2.1 ⟨1, fun _ => 2, [], fun _ => []⟩
      ⟨some 0, 4, some 0⟩ 0 rfl (by decide),
   (DeviceMemory.release_clears_handle.2.2 ⟨1, fun _ => 1, [], fun _ => []⟩
      ⟨some 0, 4, some 0⟩ 0 rfl rfl).1⟩

/-- C3: a handle wrapping caller-supplied memory never has a refcount cell,
copying it allocates nothing and changes nothing, and releasing it never
invokes the external free primitive — the whole world is untouched and only
the local fields are cleared. -/
theorem DeviceMemory.wrap_never_frees :
    (∀ p n, (DeviceMemory.wrap p n).refcount = none) ∧
    (∀ w h, h.refcount = none → DeviceMemory.copy w h = (w, h)) ∧
    (∀ w h, h.refcount = none →
      DeviceMemory.release w h = (w, DeviceMemory.empty)) :=
  ⟨fun _ _ => rfl, copy_none, release_none⟩

/-- Witness for C3: releasing a concrete wrapped handle frees nothing and
clears the local fields. -/
theorem DeviceMemory.wrap_never_frees_witness :
    DeviceMemory.release World.init (DeviceMemory.wrap 7 16) =
      (World.init, DeviceMemory.empty) :=
  DeviceMemory.wrap_never_frees.2.2 World.init (DeviceMemory.wrap 7 16) rfl

/-- C4: `create` with the current byte size is a complete no-op (identical
world, identical handle, hence identical `ptr()`); `create` with a different
size on an owning handle releases the old allocation and returns a fresh data
pointer, different from the old one, whose contents start zeroed rather than
being carried over. -/
theorem DeviceMemory.create_idempotent :
    (∀ w h n, n = h.sizeBytes → DeviceMemory.create w h n = .ok (w, h)) ∧
    (∀ w h n c, n ≠ h.sizeBytes → h.refcount = some c → h.data = some c →
      c < w.nextId →
      DeviceMemory.create w h n =
        .ok (DeviceMemory.allocate (DeviceMemory.release w h).1 n) ∧
      (DeviceMemory.allocate (DeviceMemory.release w h).1 n).2.data =
        some w.nextId ∧
      (DeviceMemory.allocate (DeviceMemory.release w h).1 n).2.data ≠ h.data ∧
      (DeviceMemory.allocate (DeviceMemory.release w h).1 n).1.mem w.nextId =
        List.replicate n 0) := by
  refine ⟨?_, ?_⟩
  · intro w h n hsz
    unfold DeviceMemory.create
    rw [if_pos hsz]
  · intro w h n c hne hr hd hlt
    have hnid : (DeviceMemory.release w h).1.nextId = w.nextId :=
      release_fst_nextId w h
    refine ⟨?_, ?_, ?_, ?_⟩
    · unfold DeviceMemory.create
      rw [if_neg hne, if_neg (by simp [hr])]
    · show some (DeviceMemory.release w h).1.nextId = some w.nextId
      rw [hnid]
    · show some (DeviceMemory.release w h).1.nextId ≠ h.data
      rw [hnid, hd]
      simp
      omega
    · show updFn (DeviceMemory.release w h).1.mem
          (DeviceMemory.release w h).1.nextId (List.replicate n 0) w.nextId =
          List.replicate n 0
      rw [hnid, updFn_same]

/-- Witness for C4: a same-size re-create of a concrete handle is a no-op,
and a different-size create of the same handle reallocates. -/
theorem DeviceMemory.create_idempotent_witness :
    DeviceMemory.create ⟨1, fun _ => 1, [], fun _ => []⟩ ⟨some 0, 4, some 0⟩ 4 =
      .ok (⟨1, fun _ => 1, [], fun _ => []⟩, ⟨some 0, 4, some 0⟩) ∧
    DeviceMemory.create ⟨1, fun _ => 1, [], fun _ => []⟩ ⟨some 0, 4, some 0⟩ 8 =
      .ok (DeviceMemory.allocate
        (DeviceMemory.release ⟨1, fun _ => 1, [], fun _ => []⟩
          ⟨some 0, 4, some 0⟩).1 8) :=
  ⟨DeviceMemory.create_idempotent.1 ⟨1, fun _ => 1, [], fun _ => []⟩
      ⟨some 0, 4, some 0⟩ 4 rfl,
   (DeviceMemory.create_idempotent.2 ⟨1, fun _ => 1, [], fun _ => []⟩
      ⟨some 0, 4, some 0⟩ 8 0 (by decide) rfl rfl (by decide)).1⟩

/-- C6: `swap` exchanges exactly the data pointer, size (plus stride and row
fields for the 2-D variant) and refcount-pointer fields, performs no
allocation and no transfer (the world is returned untouched), and a
subsequent `release` on a swapped handle operates on the post-swap
allocation. -/
theorem DeviceMemory.swap_exchanges_fields :
    (∀ w a b, DeviceMemory.swap w a b = (w, b, a)) ∧
    (∀ w a b, DeviceMemory.release w (DeviceMemory.swap w a b).2.1 =
      DeviceMemory.release w b) ∧
    (∀ a b, DeviceMemory2D.swap a b = (b, a)) :=
  ⟨fun _ _ _ => rfl, fun _ _ _ => rfl, fun _ _ => rfl⟩

/-- C7: `create` on a non-owning wrapped handle with a different size fails
with `ImmutableExternalBufferError` and produces no new state (the wrapped
memory is neither truncated nor reallocated), while an equal size succeeds as
a no-op returning the handle unchanged. -/
theorem DeviceMemory.create_wrapped_mismatch :
    (∀ w h n p, h.refcount = none → h.data = some p → n ≠ h.sizeBytes →
      DeviceMemory.create w h n = .error .immutableExternalBufferError) ∧
    (∀ w p sz, DeviceMemory.create w (DeviceMemory.wrap p sz) sz =
      .ok (w, DeviceMemory.wrap p sz)) := by
  refine ⟨?_, ?_⟩
  · intro w h n p hr hd hne
    unfold DeviceMemory.create
    rw [if_neg hne, if_pos (by simp [hr, hd])]
  · intro w p sz
    unfold DeviceMemory.create
    rw [if_pos (show sz = (DeviceMemory.wrap p sz).sizeBytes from rfl)]

/-- Witness for C7: resizing a concrete wrapped handle fails, and the
same-size call is a no-op. -/
theorem DeviceMemory.create_wrapped_mismatch_witness :
    DeviceMemory.create World.init (DeviceMemory.wrap 5 4) 8 =
      .error .immutableExternalBufferError ∧
    DeviceMemory.create World.init (DeviceMemory.wrap 5 4) 4 =
      .ok (World.init, DeviceMemory.wrap 5 4) :=
  ⟨DeviceMemory.create_wrapped_mismatch.1 World.init (DeviceMemory.wrap 5 4)
      8 5 rfl rfl (by decide),
   DeviceMemory.create_wrapped_mismatch.2 World.init 5 4⟩

/-- C8: the row accessor of the strided device view (`PtrStepPCL::ptr`, from
`kernel_containers.hpp`) and of the 2-D container returns the base data
pointer offset by exactly `y * stepBytes` bytes — the stride is stored and
applied in bytes, independently of the element type (the computation never
involves `elemSize`). -/
theorem ptr_row_byte_offset :
    (∀ (p : PtrStepPCL) (y : Nat), p.ptr y = p.data + y * p.step) ∧
    (∀ (c : DeviceArray2DPCL) (y : Nat), c.ptr y = c.data + y * c.stepBytes) :=
  ⟨fun _ _ => rfl, fun _ _ => rfl⟩

/-- C9: `elem_step()` is `stepBytes / sizeof(T)` with truncating integer
division: `elem_step() * sizeof(T)` never exceeds `stepBytes`, and equals it
exactly when `stepBytes` is a multiple of `sizeof(T)`. -/
theorem elem_step_truncating (c : DeviceArray2DPCL) :
    c.elem_step * c.elemSize ≤ c.stepBytes ∧
    (c.elem_step * c.elemSize = c.stepBytes ↔ c.elemSize ∣ c.stepBytes) := by
  unfold DeviceArray2DPCL.elem_step
  refine ⟨Nat.div_mul_le_self _ _, ?_, ?_⟩
  · intro hEq
    exact ⟨c.stepBytes / c.elemSize, by rw [Nat.mul_comm]; exact hEq.symm⟩
  · intro hdvd
    exact Nat.div_mul_cancel hdvd

/-- C10: every default-constructed device-view descriptor from
`kernel_containers.hpp` is fully zero-initialized: null (address-zero) data
pointer, and zero size / step / rows / cols where the variant has them. -/
theorem kernel_containers_default_zero :
    DevPtr.mkDefault.data = 0 ∧
    PtrSzPCL.mkDefault.data = 0 ∧ PtrSzPCL.mkDefault.size = 0 ∧
    PtrStepPCL.mkDefault.data = 0 ∧ PtrStepPCL.mkDefault.step = 0 ∧
    PtrStepSzPCL.mkDefault.data = 0 ∧ PtrStepSzPCL.mkDefault.step = 0 ∧
    PtrStepSzPCL.mkDefault.rows = 0 ∧ PtrStepSzPCL.mkDefault.cols = 0 :=
  ⟨rfl, rfl, rfl, rfl, rfl, rfl, rfl, rfl, rfl⟩

/-! ## Round-trip of the typed transfers (C5). -/

theorem take_len_append {α : Type} (l r : List α) : (l ++ r).take l.length = l := by
  induction l with
  | nil => rfl
  | cons x t ih => simp [List.take, ih]

theorem drop_len_append {α : Type} (l r : List α) : (l ++ r).drop l.length = r := by
  induction l with
  | nil => rfl
  | cons x t ih => simp [ih]

theorem encodeList_length {T : Type} (enc : T → List Nat) (k : Nat)
    (hlen : ∀ x, (enc x).length = k) (xs : List T) :
    (encodeList enc xs).length = k * xs.length := by
  induction xs with
  | nil => simp [encodeList]
  | cons x t ih =>
    show (enc x ++ encodeList enc t).length = k * (t.length + 1)
    rw [List.length_append, hlen x, ih, Nat.mul_succ]
    omega

theorem decode_encode {T : Type} (enc : T → List Nat) (dec : List Nat → T)
    (k : Nat) (hlen : ∀ x, (enc x).length = k) (hdec : ∀ x, dec (enc x) = x)
    (xs : List T) :
    decodeChunks dec k xs.length (encodeList enc xs) = xs := by
  induction xs with
  | nil => rfl
  | cons x t ih =>
    show dec ((enc x ++ encodeList enc t).take k) ::
      decodeChunks dec k t.length ((enc x ++ encodeList enc t).drop k) = x :: t
    have h1 : (enc x ++ encodeList enc t).take k = enc x := by
      rw [← hlen x]
      exact take_len_append _ _
    have h2 : (enc x ++ encodeList enc t).drop k = encodeList enc t := by
      rw [← hlen x]
      exact drop_len_append _ _
    rw [h1, h2, hdec, ih]

theorem create_ok_sizeBytes (w : World) (h : DeviceMemory) (n : Nat)
    (w' : World) (h' : DeviceMemory)
    (hok : DeviceMemory.create w h n = .ok (w', h')) : h'.sizeBytes = n := by
  unfold DeviceMemory.create at hok
  by_cases hsz : n = h.sizeBytes
  · rw [if_pos hsz] at hok
    obtain ⟨hw, hh⟩ := Prod.mk.injEq .. ▸ (Except.ok.injEq .. ▸ hok)
    subst hh
    exact hsz.symm
  · rw [if_neg hsz] at hok
    by_cases hwrap : (h.data.isSome && h.refcount.isNone) = true
    · rw [if_pos hwrap] at hok
      cases hok
    · rw [if_neg hwrap] at hok
      obtain ⟨hw, hh⟩ := Prod.mk.injEq .. ▸ (Except.ok.injEq .. ▸ hok)
      subst hh
      rfl

theorem create_ok_data_none (w : World) (h : DeviceMemory) (n : Nat)
    (w' : World) (h' : DeviceMemory)
    (hok : DeviceMemory.create w h n = .ok (w', h')) (hd : h'.data = none) :
    w' = w ∧ h' = h := by
  unfold DeviceMemory.create at hok
  by_cases hsz : n = h.sizeBytes
  · rw [if_pos hsz] at hok
    obtain ⟨hw, hh⟩ := Prod.mk.injEq .. ▸ (Except.ok.injEq .. ▸ hok)
    exact ⟨hw.symm, hh.symm⟩
  · rw [if_neg hsz] at hok
    by_cases hwrap : (h.data.isSome && h.refcount.isNone) = true
    · rw [if_pos hwrap] at hok
      cases hok
    · rw [if_neg hwrap] at hok
      obtain ⟨hw, hh⟩ := Prod.mk.injEq .. ▸ (Except.ok.injEq .. ▸ hok)
      rw [← hh] at hd
      cases hd

theorem upload_ok_download (w : World) (h : DeviceMemory) (bs : List Nat)
    (w' : World) (h' : DeviceMemory)
    (hwf0 : h.data = none → h.sizeBytes = 0)
    (hok : DeviceMemory.upload w h bs = .ok (w', h')) :
    DeviceMemory.download w' h' = bs := by
  unfold DeviceMemory.upload at hok
  cases hcr : DeviceMemory.create w h bs.length with
  | error e =>
    rw [hcr] at hok
    cases hok
  | ok p =>
    obtain ⟨w₁, h₁⟩ := p
    rw [hcr] at hok
    dsimp only at hok
    have hsz : h₁.sizeBytes = bs.length :=
      create_ok_sizeBytes w h bs.length w₁ h₁ hcr
    cases hd : h₁.data with
    | some a =>
      rw [hd] at hok
      dsimp only at hok
      obtain ⟨hw, hh⟩ := Prod.mk.injEq .. ▸ (Except.ok.injEq .. ▸ hok)
      subst hh
      rw [← hw]
      unfold DeviceMemory.download
      rw [hd]
      dsimp only
      show (updFn w₁.mem a bs a).take h₁.sizeBytes = bs
      rw [updFn_same, hsz, List.take_length]
    | none =>
      rw [hd] at hok
      dsimp only at hok
      obtain ⟨hw, hh⟩ := Prod.mk.injEq .. ▸ (Except.ok.injEq .. ▸ hok)
      subst hw
      subst hh
      obtain ⟨hww, hhh⟩ := create_ok_data_none w h bs.length w₁ h₁ hcr hd
      have hbs : bs = [] := by
        have h0 : h₁.sizeBytes = 0 := by
          rw [hhh]
          exact hwf0 (by rw [← hhh]; exact hd)
        rw [h0] at hsz
        exact List.eq_nil_of_length_eq_zero hsz.symm
      unfold DeviceMemory.download
      rw [hd]
      exact hbs.symm

/-- C5: uploading `N` host elements through the typed container and then
downloading into a host buffer of `size()` elements returns exactly the
uploaded data, for any element type with a fixed-width byte codec
(`enc`/`dec` with `k = sizeof(T) > 0`) and any `N ≥ 0`; the upload goes
through `create` to ensure capacity. -/
theorem DeviceArrayPCL.upload_download_roundtrip {T : Type}
    (enc : T → List Nat) (dec : List Nat → T) (k : Nat)
    (hk : 0 < k) (hlen : ∀ x, (enc x).length = k) (hdec : ∀ x, dec (enc x) = x)
    (w : World) (h : DeviceMemory) (xs : List T) (w' : World)
    (h' : DeviceMemory) (hwf0 : h.data = none → h.sizeBytes = 0)
    (hok : DeviceArrayPCL.upload enc w h xs = .ok (w', h')) :
    DeviceArrayPCL.download dec k w' h' = xs := by
  unfold DeviceArrayPCL.upload at hok
  have hdl := upload_ok_download w h (encodeList enc xs) w' h' hwf0 hok
  have hsz : h'.sizeBytes = (encodeList enc xs).length := by
    unfold DeviceMemory.upload at hok
    cases hcr : DeviceMemory.create w h (encodeList enc xs).length with
    | error e =>
      rw [hcr] at hok
      cases hok
    | ok p =>
      obtain ⟨w₁, h₁⟩ := p
      rw [hcr] at hok
      dsimp only at hok
      have hs₁ := create_ok_sizeBytes w h (encodeList enc xs).length w₁ h₁ hcr
      cases hd : h₁.data with
      | some a =>
        rw [hd] at hok
        dsimp only at hok
        obtain ⟨hw, hh⟩ := Prod.mk.injEq .. ▸ (Except.ok.injEq .. ▸ hok)
        rw [← hh]
        exact hs₁
      | none =>
        rw [hd] at hok
        dsimp only at hok
        obtain ⟨hw, hh⟩ := Prod.mk.injEq .. ▸ (Except.ok.injEq .. ▸ hok)
        rw [← hh]
        exact hs₁
  unfold DeviceArrayPCL.download
  rw [hdl, hsz, encodeList_length enc k hlen xs,
    Nat.mul_div_cancel_left _ hk]
  exact decode_encode enc dec k hlen hdec xs

/-- Witness for C5: uploading the three-element list `[3, 1, 4]` of one-byte
elements into a fresh container and downloading it returns `[3, 1, 4]`. -/
theorem DeviceArrayPCL.upload_download_roundtrip_witness :
    DeviceArrayPCL.download (fun bs => bs.headD 0) 1
      ⟨1, updFn (fun _ => 0) 0 1, [],
        updFn (updFn (fun _ => []) 0 (List.replicate 3 0)) 0 [3, 1, 4]⟩
      ⟨some 0, 3, some 0⟩ = [3, 1, 4] :=
  DeviceArrayPCL.upload_download_roundtrip (fun x : Nat => [x])
    (fun bs => bs.headD 0) 1 (by decide) (fun _ => rfl) (fun _ => rfl)
    World.init DeviceMemory.empty [3, 1, 4]
    ⟨1, updFn (fun _ => 0) 0 1, [],
      updFn (updFn (fun _ => []) 0 (List.replicate 3 0)) 0 [3, 1, 4]⟩
    ⟨some 0, 3, some 0⟩ (fun _ => rfl) rfl
